import Mathlib

/-!
# Verification of the package-registry catalog resolution engine

Shallow embedding of the catalog service:
* the search handler and result formatter of `src/unnamed/part_000`
  (`searchHandler`, `getPackageOutput`), and
* the dataset construction and validation of `src/util/dataset.go`
  (`NewDataset`, `Validate`).

The `util.Package` type and its methods (`IsNewer`, `HasCategory`,
`HasKibanaVersion`, `GetDownloadPath`, `GetUrlPath`) live in a file that is
not part of the sources at hand; they are modelled from the specification
(spec §3, §4.1, §4.4) and marked as such on each definition.

Go maps are embedded as association lists (`List (key × value)`); map
assignment replaces the value of an existing key in place and appends a new
key at the end, `delete` removes the key, and iteration visits entries in
list order (Go's map iteration order is unspecified; all iterations in the
embedded code are order-insensitive, as each step acts only on the entry it
visits).  The filesystem seen by `Validate` is embedded as the list of base
filenames in the dataset's `elasticsearch/ingest-pipeline` directory.
-/

namespace PR

/-- Decidable equality of `Except` results, for evaluating the embedded
fallible operations on concrete inputs. -/
instance {ε α : Type} [DecidableEq ε] [DecidableEq α] : DecidableEq (Except ε α) :=
  fun a b =>
    match a, b with
    | .error e, .error f =>
      if h : e = f then .isTrue (by rw [h]) else .isFalse (by simp [h])
    | .ok x, .ok y =>
      if h : x = y then .isTrue (by rw [h]) else .isFalse (by simp [h])
    | .error _, .ok _ => .isFalse (by simp)
    | .ok _, .error _ => .isFalse (by simp)

/-- Modelled from the spec (§3, §4.1): a semantic version — a numeric
major/minor/patch triple plus optional pre-release identifiers (the
`blang/semver` version type used by the handler is an external library). -/
structure SemVer where
  major : Nat
  minor : Nat
  patch : Nat
  pre : List String := []
 deriving Repr, DecidableEq

/-- Modelled from the spec (§4.1): comparison of pre-release identifier
lists, identifier by identifier, a missing identifier sorting first. -/
def comparePreIds : List String → List String → Ordering
  | [], [] => .eq
  | [], _ :: _ => .lt
  | _ :: _, [] => .gt
  | a :: as, b :: bs => if a < b then .lt else if b < a then .gt else comparePreIds as bs

/-- Modelled from the spec (§4.1): total-order comparison of two versions —
major, then minor, then patch, numerically; a version carrying a pre-release
tag is strictly less than the same triple without one. -/
def SemVer.cmp (a b : SemVer) : Ordering :=
  if a.major < b.major then .lt else if b.major < a.major then .gt
  else if a.minor < b.minor then .lt else if b.minor < a.minor then .gt
  else if a.patch < b.patch then .lt else if b.patch < a.patch then .gt
  else match a.pre, b.pre with
    | [], [] => .eq
    | [], _ :: _ => .gt
    | _ :: _, [] => .lt
    | as, bs => comparePreIds as bs

/-- Modelled from the spec (§4.1): `isNewer(a, b)` holds iff `compare(a, b)`
is `GREATER`. -/
def SemVer.isGreater (a b : SemVer) : Bool := a.cmp b == .gt

/-- Digit list to number; `none` when empty or a non-digit occurs.
Helper for the spec-modelled version parser. -/
def digitsToNat (cs : List Char) : Option Nat :=
  if cs ≠ [] ∧ cs.all Char.isDigit then
    some (cs.foldl (fun n c => 10 * n + (c.toNat - Char.toNat '0')) 0)
  else none

/-- Modelled from the spec (§4.1): strict parsing of a semantic version
string `MAJOR.MINOR.PATCH`, optionally followed by `-` and dot-separated
pre-release identifiers and by `+` and build metadata (ignored); any other
shape is a `MalformedVersion` failure, returned as `none`. -/
def parseSemVer (s : String) : Option SemVer :=
  let noBuild := ((s.toList.splitOn '+').headD [])
  match noBuild.splitOn '-' with
  | core :: rest =>
    match core.splitOn '.' with
    | [ma, mi, pa] =>
      match digitsToNat ma, digitsToNat mi, digitsToNat pa with
      | some a, some b, some c =>
        let pre := if rest.isEmpty then ([] : List String)
          else ((List.intercalate ['-'] rest).splitOn '.').map (fun l => String.mk l)
        some { major := a, minor := b, patch := c, pre := pre }
      | _, _, _ => none
    | _ => none
  | [] => none

/-- One published package version.  Fields of `util.Package` as used by the
search handler; the type itself is outside the sources at hand, so the field
list follows the spec (§3): name, version (the parsed version is kept
alongside the string), description, type, categories, optional kibana
version constraint (stored as the base version of a caret range), internal
flag, optional title and icons. -/
structure Package where
  name : String
  version : String
  semVer : SemVer
  description : String := ""
  type : String := ""
  categories : List String := []
  kibanaConstraint : Option SemVer := none
  internal : Bool := false
  title : Option String := none
  icons : Option (List String) := none
 deriving Repr, DecidableEq

/-- Modelled from the spec (§4.1): `p.IsNewer(q)` iff `p`'s version compares
`GREATER` than `q`'s. -/
def Package.isNewer (p q : Package) : Bool := p.semVer.isGreater q.semVer

/-- Modelled from the spec (§4.4): category membership test. -/
def Package.hasCategory (p : Package) (c : String) : Bool := p.categories.contains c

/-- Modelled from the spec (§4.4): the kibana version constraint is satisfied
when it is empty, or when the queried version has the same major as the
caret-range base and is at least the base version. -/
def Package.hasKibanaVersion (p : Package) (v : SemVer) : Bool :=
  match p.kibanaConstraint with
  | none => true
  | some base => base.major == v.major && !(base.cmp v == .gt)

/-- Modelled from the spec (§3): the download path, computed
deterministically from name and version. -/
def Package.getDownloadPath (p : Package) : String :=
  "/epr/" ++ p.name ++ "/" ++ p.name ++ "-" ++ p.version ++ ".tar.gz"

/-- Modelled from the spec (§3): the catalog path, computed deterministically
from name and version. -/
def Package.getUrlPath (p : Package) : String :=
  "/package/" ++ p.name ++ "-" ++ p.version

/-- A stream of a dataset (`util.Stream`, src/util/dataset.go lines 43-49);
variable definition maps are embedded as key-value lists. -/
structure Stream where
  input : String := ""
  vars : List (List (String × String)) := []
  dataset : String := ""
  title : String := ""
  description : String := ""
 deriving Repr, DecidableEq

/-- A dataset descriptor (`util.DataSet`, src/util/dataset.go lines 19-33).
`BasePath` (the filesystem location) is not carried: the validation below
receives the relevant directory listing as an argument instead.  The source
field `Type` is spelled `type` here, `Type` being reserved. -/
structure DataSet where
  ID : String := ""
  Title : String := ""
  Release : String := ""
  type : String := ""
  IngestPipeline : String := ""
  Streams : List Stream := []
  Package : String := ""
  Path : String := ""
 deriving Repr, DecidableEq

/-- The validation failures produced by `DataSet.Validate`
(src/util/dataset.go): the hyphen rule, unused pipeline files, and a
declared pipeline whose file is missing. -/
inductive DatasetError where
  | invalidID (id : String)
  | unusedPipelines (id : String)
  | missingPipeline (pipeline : String)
 deriving Repr, DecidableEq

/-- Embeds `strings.Contains(s, "-")` for a single-character pattern:
membership of the character among the characters of `s`. -/
def containsChar (s : String) (c : Char) : Bool := s.toList.contains c

/-- `DataSet.Validate` (src/util/dataset.go lines 87-122).  `paths` is the
list of base filenames present in the dataset's
`elasticsearch/ingest-pipeline` directory (`filepath.Glob` of `*` followed
by `filepath.Base`); the `os.Stat` existence checks of the source become
membership in that list.  Order of checks follows the source: hyphen rule,
defaulting of an unset `ingest_pipeline` to `"default"` when a
`default.json` or `default.yml` file exists, rejection of unused pipeline
files, and the existence check for the configured pipeline. -/
def Validate (d : DataSet) (paths : List String) : Except DatasetError DataSet :=
  if containsChar d.ID '-' then .error (.invalidID d.ID)
  else
    let d1 := if d.IngestPipeline == "" then
        (if paths.any (fun p => p == "default.json" || p == "default.yml") then
          { d with IngestPipeline := "default" } else d)
      else d
    if d1.IngestPipeline == "" && !paths.isEmpty then .error (.unusedPipelines d1.ID)
    else if d1.IngestPipeline != "" &&
        !(paths.contains (d1.IngestPipeline ++ ".json") ||
          paths.contains (d1.IngestPipeline ++ ".yml")) then
      .error (.missingPipeline d1.IngestPipeline)
    else .ok d1

/-- The post-unpack steps of `NewDataset` (src/util/dataset.go lines 63-84):
record the owning package's name and the dataset directory name, default an
empty `ID` to `{package}.{datasetDirectoryName}` and an empty `Release` to
`"beta"`.  Manifest reading and unpacking belong to the external loader. -/
def newDatasetDefaults (d : DataSet) (pkgName datasetPath : String) : DataSet :=
  let d1 := { d with Package := pkgName, Path := datasetPath }
  let d2 := if d1.ID == "" then { d1 with ID := pkgName ++ "." ++ datasetPath } else d1
  if d2.Release == "" then { d2 with Release := "beta" } else d2

/-- The inner `map[string]util.Package` of the handler's
`packagesList` (version string → package), as an association list. -/
abbrev VersionMap := List (String × Package)

/-- The handler's `packagesList : map[string]map[string]util.Package`
(package name → version → package), as an association list. -/
abbrev PackagesList := List (String × VersionMap)

/-- Go map assignment `m[k] = v`: replace the value of an existing key in
place, append a fresh key at the end. -/
def mapSet (m : VersionMap) (k : String) (v : Package) : VersionMap :=
  if (m.lookup k).isSome then m.map (fun kv => if kv.1 == k then (kv.1, v) else kv)
  else m ++ [(k, v)]

/-- `delete(packagesList[name], ver)` (src/unnamed/part_000 line 114): when
`name` is present, remove `ver` from its inner map; indexing a missing
`name` yields Go's nil map, on which `delete` is a no-op. -/
def deleteVersionAt (pl : PackagesList) (name ver : String) : PackagesList :=
  pl.map (fun nv => if nv.1 == name then (nv.1, nv.2.filter (fun vp => vp.1 != ver)) else nv)

/-- The nested collapse loop of `searchHandler`
(src/unnamed/part_000 lines 103-118), run for one incoming package `p`:
every entry `pp` of the current list is visited; when `pp` has the same name
as `p`, a `pp` that is newer than `p` triggers `continue` — which in the
source skips only the `delete` — and any other such `pp` is deleted.  The
iteration is embedded as a fold over a snapshot of the entries; this is
faithful because each step deletes only the entry it visits. -/
def collapse (pl : PackagesList) (p : Package) : PackagesList :=
  (pl.flatMap (fun nv => nv.2)).foldl
    (fun acc pp =>
      if pp.2.name == p.name then
        (if pp.2.isNewer p then acc
         else deleteVersionAt acc pp.2.name pp.2.version)
      else acc)
    pl

/-- Lines 120-123 of src/unnamed/part_000: create the inner map for
`p.Name` when absent, then assign `packagesList[p.Name][p.Version] = p`. -/
def addPackage (pl : PackagesList) (p : Package) : PackagesList :=
  let pl1 := if (pl.lookup p.name).isSome then pl else pl ++ [(p.name, [])]
  pl1.map (fun nv => if nv.1 == p.name then (nv.1, mapSet nv.2 p.version p) else nv)

/-- The decoded query parameters used by the handler's filter loop. -/
structure ParsedQuery where
  kibanaVersion : Option SemVer := none
  category : String := ""
  packageQuery : String := ""
  all : Bool := false
  internal : Bool := false
 deriving Repr, DecidableEq

/-- One iteration of the package loop of `searchHandler`
(src/unnamed/part_000 lines 78-124): skip internal packages unless
requested, filter by category, by kibana version, and by package name; when
`all` is unset run the version collapse; finally store the package. -/
def processPackage (q : ParsedQuery) (pl : PackagesList) (p : Package) : PackagesList :=
  if p.internal && !q.internal then pl
  else if q.category != "" && !(p.hasCategory q.category) then pl
  else if (match q.kibanaVersion with
           | some kv => !(p.hasKibanaVersion kv)
           | none => false) then pl
  else if q.packageQuery != "" && q.packageQuery != p.name then pl
  else
    let pl1 := if !q.all then collapse pl p else pl
    addPackage pl1 p

/-- The whole package loop of `searchHandler`
(src/unnamed/part_000 lines 75-124), starting from the empty list. -/
def buildList (q : ParsedQuery) (packages : List Package) : PackagesList :=
  packages.foldl (processPackage q) []

/-- One record of the output array built by `getPackageOutput`
(src/unnamed/part_000 lines 155-171): the `title`, `icons` and `internal`
keys are present only conditionally; `internal = true` means the record
carries the `internal: true` marker. -/
structure OutputRecord where
  name : String
  description : String
  version : String
  type : String
  download : String
  path : String
  title : Option String
  icons : Option (List String)
  internal : Bool
 deriving Repr, DecidableEq

/-- Projection of one package into its output record
(src/unnamed/part_000 lines 155-171). -/
def recordOf (m : Package) : OutputRecord :=
  { name := m.name
    description := m.description
    version := m.version
    type := m.type
    download := m.getDownloadPath
    path := m.getUrlPath
    title := m.title
    icons := m.icons
    internal := m.internal }

/-- Lexicographic order (the `≤` version) on character lists, by Unicode
code point. -/
def listLe : List Char → List Char → Bool
  | [], _ => true
  | _ :: _, [] => false
  | a :: as, b :: bs =>
    if a.toNat < b.toNat then true
    else if b.toNat < a.toNat then false
    else listLe as bs

/-- Embeds the string order used by `sort.Strings`: Go compares the UTF-8
encodings bytewise, which coincides with lexicographic order of the code
points. -/
def strLe (a b : String) : Bool := listLe a.toList b.toList

/-- Embeds `sort.Strings` (ascending). -/
def sortStrings (l : List String) : List String :=
  List.insertionSort (fun a b => strLe a b = true) l

/-- The composite sort keys of `getPackageOutput`
(src/unnamed/part_000 lines 140-147): `name + "@" + version` for every
entry of the nested map. -/
def composeKeys (pl : PackagesList) : List String :=
  pl.flatMap (fun nv => nv.2.map (fun vp => nv.1 ++ "@" ++ vp.1))

/-- Embeds `strings.Split(k, "@")`: split at every occurrence of the
single-character separator. -/
def splitSeparator (k : String) : List String :=
  (k.toList.splitOn '@').map (fun l => String.mk l)

/-- The Go zero value of `util.Package`, produced by indexing a map at a
missing key. -/
def zeroPackage : Package :=
  { name := "", version := "", semVer := { major := 0, minor := 0, patch := 0 } }

/-- `packagesList[parts[0]][parts[1]]` (src/unnamed/part_000 line 154):
nested map indexing, yielding the zero value at a missing key. -/
def lookupComposite (pl : PackagesList) (parts : List String) : Package :=
  ((((pl.lookup (parts.headD "")).getD []).lookup ((parts.drop 1).headD "")).getD zeroPackage)

/-- The record list of `getPackageOutput`
(src/unnamed/part_000 lines 138-173): collect the composite keys, sort them
(`sort.Strings`, ascending), split each key back at the separator and
project the package found at the resulting nested index. -/
def getPackageOutput (pl : PackagesList) : List OutputRecord :=
  (sortStrings (composeKeys pl)).map
    (fun k => recordOf (lookupComposite pl (splitSeparator k)))

/-- One JSON field with a string value. -/
def renderField (k v : String) : String :=
  "\"" ++ k ++ "\": \"" ++ v ++ "\""

/-- JSON rendering of one output record; models the object encoding of
`json.MarshalIndent` (an external serializer per spec §6): the optional
keys appear exactly when present. -/
def renderRecord (r : OutputRecord) : String :=
  "  \x7b\n    " ++ String.intercalate ",\n    "
    ([renderField "name" r.name,
      renderField "description" r.description,
      renderField "version" r.version,
      renderField "type" r.type,
      renderField "download" r.download,
      renderField "path" r.path]
     ++ (match r.title with | some t => [renderField "title" t] | none => [])
     ++ (match r.icons with
         | some is => ["\"icons\": [" ++
             String.intercalate ", " (is.map (fun i => "\"" ++ i ++ "\"")) ++ "]"]
         | none => [])
     ++ (if r.internal then ["\"internal\": true"] else []))
  ++ "\n  \x7d"

/-- The serialization step of `getPackageOutput`
(src/unnamed/part_000 lines 175-180): an empty output array is rendered as
the literal `[]` instead of `null`; otherwise the records are rendered as a
JSON array. -/
def renderOutput (output : List OutputRecord) : String :=
  if output.length == 0 then "[]"
  else "[\n" ++ String.intercalate ",\n" (output.map renderRecord) ++ "\n]"

/-- The raw query parameters of one request, each as the string returned by
`query.Get`; the empty string means the parameter is absent. -/
structure RawQuery where
  kibana : String := ""
  category : String := ""
  packageParam : String := ""
  allParam : String := ""
  internalParam : String := ""
 deriving Repr, DecidableEq

/-- Embeds `strconv.ParseBool`: exactly `1, t, T, TRUE, true, True` parse to
`true` and `0, f, F, FALSE, false, False` to `false`; anything else is an
error, returned as `none`. -/
def parseBool (s : String) : Option Bool :=
  if s == "1" || s == "t" || s == "T" || s == "TRUE" || s == "true" || s == "True" then
    some true
  else if s == "0" || s == "f" || s == "F" || s == "FALSE" || s == "false" || s == "False" then
    some false
  else none

/-- The one request-rejection the parameter-reading part of `searchHandler`
can produce (src/unnamed/part_000 lines 35-41): an unparsable kibana
version. -/
inductive SearchError where
  | invalidKibanaVersion (v : String) : SearchError
 deriving Repr, DecidableEq

/-- The query decoding of `searchHandler` (src/unnamed/part_000 lines
33-68): a non-empty kibana parameter must parse, rejecting the request
otherwise; the `all` and `internal` flags fall back to `false` when absent
or unparsable (`all, _ = strconv.ParseBool(v)` discards the error).  The
source wraps the reads in `if len(query) > 0`; with every parameter absent
the two paths agree, so the guard is dropped. -/
def parseQuery (rq : RawQuery) : Except SearchError ParsedQuery :=
  if rq.kibana != "" then
    match parseSemVer rq.kibana with
    | none => .error (.invalidKibanaVersion rq.kibana)
    | some v =>
      .ok { kibanaVersion := some v
            category := rq.category
            packageQuery := rq.packageParam
            all := (parseBool rq.allParam).getD false
            internal := (parseBool rq.internalParam).getD false }
  else
    .ok { kibanaVersion := none
          category := rq.category
          packageQuery := rq.packageParam
          all := (parseBool rq.allParam).getD false
          internal := (parseBool rq.internalParam).getD false }

/-- `searchHandler` (src/unnamed/part_000 lines 21-136) as a function of the
decoded parameters and the packages supplied by the loader (`GetPackages`
walks storage and is the external manifest loader): decode the query, build
the filtered and collapsed list, format and serialize it.  The value is the
response body; an error is the `notFound` rejection of the request. -/
def searchHandler (rq : RawQuery) (packages : List Package) : Except SearchError String :=
  match parseQuery rq with
  | .error e => .error e
  | .ok q => .ok (renderOutput (getPackageOutput (buildList q packages)))

/-! ### Concrete packages used to evaluate the embedded code -/

/-- mysql at 1.2.0. -/
def mysql120 : Package :=
  { name := "mysql", version := "1.2.0"
    semVer := { major := 1, minor := 2, patch := 0 }, description := "newer" }

/-- mysql at 1.0.0. -/
def mysql100 : Package :=
  { name := "mysql", version := "1.0.0"
    semVer := { major := 1, minor := 0, patch := 0 }, description := "older" }

/-- First of two manifests claiming mysql 1.0.0. -/
def mysqlDupFirst : Package :=
  { name := "mysql", version := "1.0.0"
    semVer := { major := 1, minor := 0, patch := 0 }, description := "first manifest" }

/-- Second of two manifests claiming mysql 1.0.0; differs in its description. -/
def mysqlDupSecond : Package :=
  { name := "mysql", version := "1.0.0"
    semVer := { major := 1, minor := 0, patch := 0 }, description := "second manifest" }

/-! ### Invariants used in the theorems -/

/-- No package stored in the version map is internal. -/
def NoInternalVM (vm : VersionMap) : Prop :=
  ∀ vp ∈ vm, (vp : String × Package).2.internal = false

/-- No package stored anywhere in the nested list is internal. -/
def NoInternal (pl : PackagesList) : Prop :=
  ∀ nv ∈ pl, NoInternalVM (nv : String × VersionMap).2

/-- The shape `searchHandler` maintains for `packagesList`: outer keys are
distinct, inner keys are distinct, every package sits under its own name and
version, and no name or version contains the separator character. -/
def WellFormedList (pl : PackagesList) : Prop :=
  (pl.map Prod.fst).Nodup ∧
  (∀ nv ∈ pl, (((nv : String × VersionMap).2.map Prod.fst).Nodup)) ∧
  (∀ nv ∈ pl, ∀ vp ∈ (nv : String × VersionMap).2,
    (vp : String × Package).2.name = nv.1 ∧ vp.2.version = vp.1) ∧
  (∀ nv ∈ pl, ('@' ∉ (nv : String × VersionMap).1.toList) ∧
    ∀ vp ∈ nv.2, '@' ∉ ((vp : String × Package).1.toList))

/-- `strLe` is total, so `sort.Strings` never fails to order two keys. -/
instance : IsTotal String (fun a b => strLe a b = true) :=
  ⟨fun a b => by
    unfold strLe
    generalize a.toList = as
    generalize b.toList = bs
    induction as generalizing bs with
    | nil => left; rfl
    | cons x xs ih =>
      cases bs with
      | nil => right; rfl
      | cons y ys =>
        by_cases hxy : x.toNat < y.toNat
        · left; simp [listLe, hxy]
        · by_cases hyx : y.toNat < x.toNat
          · right; simp [listLe, hyx]
          · rcases ih ys with h | h
            · left; simpa [listLe, hxy, hyx] using h
            · right; simpa [listLe, hyx, hxy] using h⟩

/-- `strLe` is transitive. -/
instance : IsTrans String (fun a b => strLe a b = true) :=
  ⟨fun a b c => by
    unfold strLe
    generalize a.toList = as
    generalize b.toList = bs
    generalize c.toList = cs
    induction as generalizing bs cs with
    | nil => intro _ _; rfl
    | cons x xs ih =>
      intro hab hbc
      cases bs with
      | nil => simp [listLe] at hab
      | cons y ys =>
        cases cs with
        | nil => simp [listLe] at hbc
        | cons z zs =>
          simp only [listLe] at hab hbc ⊢
          rcases Nat.lt_trichotomy x.toNat y.toNat with h1 | h1 | h1
          · rcases Nat.lt_trichotomy y.toNat z.toNat with h2 | h2 | h2
            · have hxz : x.toNat < z.toNat := by omega
              simp [hxz]
            · have hxz : x.toNat < z.toNat := by omega
              simp [hxz]
            · have n1 : ¬ y.toNat < z.toNat := by omega
              simp [n1, h2] at hbc
          · rcases Nat.lt_trichotomy y.toNat z.toNat with h2 | h2 | h2
            · have hxz : x.toNat < z.toNat := by omega
              simp [hxz]
            · have n1 : ¬ x.toNat < y.toNat := by omega
              have n2 : ¬ y.toNat < x.toNat := by omega
              have n3 : ¬ y.toNat < z.toNat := by omega
              have n4 : ¬ z.toNat < y.toNat := by omega
              have n5 : ¬ x.toNat < z.toNat := by omega
              have n6 : ¬ z.toNat < x.toNat := by omega
              simp only [n1, n2, if_neg, if_false] at hab
              simp only [n3, n4, if_neg, if_false] at hbc
              simpa [n5, n6] using ih ys zs hab hbc
            · have n1 : ¬ y.toNat < z.toNat := by omega
              simp [n1, h2] at hbc
          · have n1 : ¬ x.toNat < y.toNat := by omega
            simp [n1, h1] at hab⟩

/-! ### Helper lemmas on the association-list embedding of Go maps -/

set_option maxRecDepth 100000

theorem toList_append (s t : String) : (s ++ t).toList = s.toList ++ t.toList := by
  simp [String.toList, String.data_append]

theorem mk_toList (s : String) : String.mk s.toList = s := rfl

theorem lookup_map_update {α : Type} (m : List (String × α)) (k : String) (f : α → α) :
    (m.map (fun kv => if kv.1 == k then (kv.1, f kv.2) else kv)).lookup k
      = (m.lookup k).map f := by
  induction m with
  | nil => rfl
  | cons a t ih =>
    obtain ⟨k1, v1⟩ := a
    simp only [List.map_cons]
    by_cases h : k1 = k
    · subst h
      rw [if_pos (beq_self_eq_true k1), List.lookup_cons, List.lookup_cons,
        beq_self_eq_true]
      rfl
    · have h2 : (k == k1) = false := by simp [Ne.symm h]
      rw [if_neg (by simp [h] : ¬ ((k1 == k) = true)), List.lookup_cons, List.lookup_cons, h2]
      exact ih

theorem lookup_append_none {α : Type} (m m' : List (String × α)) (k : String)
    (h : m.lookup k = none) : (m ++ m').lookup k = m'.lookup k := by
  induction m with
  | nil => rfl
  | cons a t ih =>
    obtain ⟨k1, v1⟩ := a
    by_cases hk : k = k1
    · subst hk
      rw [List.lookup_cons, beq_self_eq_true] at h
      exact absurd h (by simp)
    · have hkb : (k == k1) = false := by simp [hk]
      rw [List.lookup_cons, hkb] at h
      rw [List.cons_append, List.lookup_cons, hkb]
      exact ih h

theorem mem_of_lookup {α : Type} (m : List (String × α)) (k : String) (v : α)
    (h : m.lookup k = some v) : ∃ k2, (k2, v) ∈ m := by
  induction m with
  | nil => simp [List.lookup] at h
  | cons a t ih =>
    obtain ⟨k1, v1⟩ := a
    by_cases hk : (k == k1) = true
    · rw [List.lookup_cons, hk] at h
      have hv : v1 = v := Option.some.inj h
      exact ⟨k1, by rw [hv]; exact List.mem_cons_self _ _⟩
    · rw [Bool.not_eq_true] at hk
      rw [List.lookup_cons, hk] at h
      obtain ⟨k2, hm⟩ := ih h
      exact ⟨k2, List.mem_cons_of_mem _ hm⟩

theorem lookup_eq_of_mem {α : Type} (m : List (String × α)) (k : String) (v : α)
    (hnd : (m.map Prod.fst).Nodup) (hmem : (k, v) ∈ m) : m.lookup k = some v := by
  induction m with
  | nil => cases hmem
  | cons a t ih =>
    obtain ⟨k1, v1⟩ := a
    simp only [List.map_cons, List.nodup_cons] at hnd
    rcases List.mem_cons.1 hmem with heq | hmem'
    · injection heq with he1 he2
      subst he1
      subst he2
      rw [List.lookup_cons, beq_self_eq_true]
    · have hk : k ≠ k1 := by
        intro he
        subst he
        exact hnd.1 (List.mem_map.2 ⟨(k, v), hmem', rfl⟩)
      have hkb : (k == k1) = false := by simp [hk]
      rw [List.lookup_cons, hkb]
      exact ih hnd.2 hmem'

theorem mapSet_lookup_self (m : VersionMap) (k : String) (v : Package) :
    (mapSet m k v).lookup k = some v := by
  unfold mapSet
  by_cases h : (m.lookup k).isSome
  · rw [if_pos h, lookup_map_update m k (fun _ => v)]
    obtain ⟨w, hw⟩ := Option.isSome_iff_exists.1 h
    rw [hw]
    rfl
  · rw [if_neg h, lookup_append_none _ _ _ (Option.not_isSome_iff_eq_none.1 h)]
    simp [List.lookup]

/-!
### C1 — newest-only collapsing

The claim: with `all=false`, the ResultSet holds exactly one entry per name,
carrying the greatest surviving version, regardless of the order in which
the loader supplies the packages.  The code violates it: the `continue` at
src/unnamed/part_000 line 111 exits only the inner loop over `versions`, so
it skips the `delete` but not the unconditional store at line 123 — an
older version arriving after a newer one is still added.
-/

/-- C1: evaluating the handler loop at the failing input — mysql 1.2.0
supplied before mysql 1.0.0, `all=false` — leaves both versions in the
list, and both appear in the output, although 1.2.0 is newer than 1.0.0;
the code's own comments (lines 77 and 109-110) state that only the most
recent version should remain. -/
theorem C1_stale_version_survives :
    mysql120.isNewer mysql100 = true ∧
    buildList { } [mysql120, mysql100] = [("mysql", [("1.2.0", mysql120), ("1.0.0", mysql100)])] ∧
    (getPackageOutput (buildList { } [mysql120, mysql100])).map (fun r => (r.name, r.version))
      = [("mysql", "1.0.0"), ("mysql", "1.2.0")] := by
  refine ⟨rfl, by decide, by decide⟩

/-!
### C2 — duplicate name+version handling

The claim: building the index from a list containing two entries with the
same name and version fails fast with a `DuplicateVersion` error and never
silently overwrites.  The code has no such check: line 123 of
src/unnamed/part_000 plainly assigns into the nested map, so the later
entry replaces the earlier one and the handler answers normally.
-/

/-- C2 counterexample: two packages claiming mysql 1.0.0 that differ in
their description; the build keeps only the second and the handler returns
a normal response instead of an error. -/
theorem C2_counterexample :
    mysqlDupFirst.name = mysqlDupSecond.name ∧
    mysqlDupFirst.version = mysqlDupSecond.version ∧
    mysqlDupFirst ≠ mysqlDupSecond ∧
    buildList { all := true } [mysqlDupFirst, mysqlDupSecond]
      = [("mysql", [("1.0.0", mysqlDupSecond)])] ∧
    searchHandler { allParam := "true" } [mysqlDupFirst, mysqlDupSecond]
      = .ok (renderOutput (getPackageOutput [("mysql", [("1.0.0", mysqlDupSecond)])])) := by
  exact ⟨rfl, rfl, by decide, by decide, by decide⟩

/-- C2 amended: storing a package never fails; the assignment at line 123 of
src/unnamed/part_000 makes the package last written under a name+version
pair the one the index holds (last write wins), for every prior state. -/
theorem C2_last_write_wins (pl : PackagesList) (p : Package) :
    ((addPackage pl p).lookup p.name).bind (fun vm => vm.lookup p.version) = some p := by
  unfold addPackage
  by_cases h : (pl.lookup p.name).isSome
  · rw [if_pos h, lookup_map_update pl p.name (fun vm => mapSet vm p.version p)]
    obtain ⟨vm, hvm⟩ := Option.isSome_iff_exists.1 h
    rw [hvm]
    simp [mapSet_lookup_self]
  · rw [if_neg h, lookup_map_update _ p.name (fun vm => mapSet vm p.version p),
      lookup_append_none _ _ _ (Option.not_isSome_iff_eq_none.1 h)]
    simp [List.lookup, mapSet_lookup_self]

/-!
### C3 — the name filter and collapsing

The claim (and the comment at src/unnamed/part_000 line 98): when the
`package` parameter is set, every version of that package is returned.  The
code still runs the `!all` collapse at lines 103-118, so with `all=false`
older versions are dropped (when they are supplied before the newer one).
-/

/-- C3: evaluating the handler loop at the failing input — both versions of
mysql supplied oldest first, query `package=mysql`, `all=false` — yields
only the newest version, not all versions. -/
theorem C3_name_filter_still_collapses :
    (getPackageOutput (buildList { packageQuery := "mysql" } [mysql100, mysql120])).map
      (fun r => (r.name, r.version)) = [("mysql", "1.2.0")] := by
  decide

/-!
### C5 — malformed platform version rejects the query
-/

/-- C5: when the kibana parameter is present but does not parse, the handler
rejects the whole request with the version error and produces no result
set, for every package set (src/unnamed/part_000 lines 35-41). -/
theorem C5_malformed_kibana_rejects_query (rq : RawQuery) (packages : List Package)
    (hk : rq.kibana ≠ "") (hbad : parseSemVer rq.kibana = none) :
    searchHandler rq packages = .error (.invalidKibanaVersion rq.kibana) := by
  simp [searchHandler, parseQuery, hk, hbad]

/-- C5 witness: the concrete request `kibana=foo` is rejected. -/
theorem C5_witness :
    searchHandler { kibana := "foo" } [] = .error (.invalidKibanaVersion "foo") :=
  C5_malformed_kibana_rejects_query { kibana := "foo" } [] (by decide) (by decide)

/-!
### C7 — empty result sets serialize as `[]`
-/

/-- C7: whenever the selected set is empty the serialized body is the
explicit `[]` (src/unnamed/part_000 lines 175-178), and an empty package
set under any well-formed query answers `.ok "[]"` — never an absent or
null value. -/
theorem C7_empty_serializes_as_brackets (pl : PackagesList) (rq : RawQuery)
    (hpl : composeKeys pl = [])
    (hk : rq.kibana = "" ∨ (parseSemVer rq.kibana).isSome = true) :
    renderOutput (getPackageOutput pl) = "[]" ∧ searchHandler rq [] = .ok "[]" := by
  constructor
  · simp [getPackageOutput, hpl, sortStrings, List.insertionSort, renderOutput]
  · rcases hk with h | h
    · simp [searchHandler, parseQuery, h, buildList, getPackageOutput, composeKeys,
        sortStrings, List.insertionSort, renderOutput]
    · obtain ⟨v, hv⟩ := Option.isSome_iff_exists.1 h
      have hne : rq.kibana ≠ "" := by
        intro he
        rw [he, (rfl : parseSemVer "" = none)] at hv
        exact Option.noConfusion hv
      simp [searchHandler, parseQuery, hne, hv, buildList, getPackageOutput, composeKeys,
        sortStrings, List.insertionSort, renderOutput]

/-- C7 witness: the empty list and the empty query. -/
theorem C7_witness :
    renderOutput (getPackageOutput ([] : PackagesList)) = "[]" ∧
    searchHandler { } [] = .ok "[]" :=
  C7_empty_serializes_as_brackets [] { } rfl (Or.inl rfl)

/-!
### C9 — malformed boolean flags are silently treated as false
-/

/-- C9: when `all` or `internal` is present but unparsable, the request is
not rejected: the handler behaves exactly as if the flag were absent — and
an absent flag is false — because `strconv.ParseBool`'s error is discarded
(src/unnamed/part_000 lines 55-67). -/
theorem C9_malformed_flags_fall_back_to_false (rq : RawQuery) (packages : List Package) :
    (parseBool rq.allParam = none →
      searchHandler rq packages = searchHandler { rq with allParam := "" } packages) ∧
    (parseBool rq.internalParam = none →
      searchHandler rq packages = searchHandler { rq with internalParam := "" } packages) := by
  have hemp : parseBool "" = none := rfl
  constructor <;> intro h <;> simp [searchHandler, parseQuery, h, hemp]

/-- C9 witness: the unparsable flag values `all=maybe` and `internal=nope`
leave the handler's answer identical to the flag-free request. -/
theorem C9_witness :
    searchHandler { allParam := "maybe" } []
      = searchHandler { ({ allParam := "maybe" } : RawQuery) with allParam := "" } [] ∧
    searchHandler { internalParam := "nope" } []
      = searchHandler { ({ internalParam := "nope" } : RawQuery) with internalParam := "" } [] :=
  ⟨(C9_malformed_flags_fall_back_to_false { allParam := "maybe" } []).1 (by decide),
   (C9_malformed_flags_fall_back_to_false { internalParam := "nope" } []).2 (by decide)⟩

/-!
### C4 — ingest-pipeline defaulting and the unused-pipelines check
-/

/-- C4: for a dataset whose `ingest_pipeline` is unset and whose id passes
the hyphen rule, `Validate` behaves on the pipeline-directory filenames as
specified (src/util/dataset.go lines 98-110): a `default.json` or
`default.yml` file makes the pipeline `"default"`; otherwise a non-empty
directory fails with the unused-pipelines error; an empty directory passes
with the pipeline still unset. -/
theorem C4_pipeline_defaulting (d : DataSet) (paths : List String)
    (hp : d.IngestPipeline = "") (hid : containsChar d.ID '-' = false) :
    ("default.json" ∈ paths ∨ "default.yml" ∈ paths →
      Validate d paths = .ok { d with IngestPipeline := "default" }) ∧
    ("default.json" ∉ paths → "default.yml" ∉ paths → paths ≠ [] →
      Validate d paths = .error (.unusedPipelines d.ID)) ∧
    (paths = [] → Validate d paths = .ok d) := by
  refine ⟨?_, ?_, ?_⟩
  · intro hdef
    have hany : paths.any (fun p => p == "default.json" || p == "default.yml") = true := by
      rcases hdef with h | h
      · exact List.any_eq_true.2 ⟨_, h, by simp⟩
      · exact List.any_eq_true.2 ⟨_, h, by simp⟩
    simp [Validate, hid, hp, hany]
    intro hnj
    rcases hdef with h | h
    · exact absurd h hnj
    · exact h
  · intro h1 h2 hne
    have hany : paths.any (fun p => p == "default.json" || p == "default.yml") = false := by
      rw [Bool.eq_false_iff]
      intro hc
      obtain ⟨x, hx, hor⟩ := List.any_eq_true.1 hc
      rcases Bool.or_eq_true _ _ ▸ hor with h | h
      · exact h1 ((beq_iff_eq.1 h) ▸ hx)
      · exact h2 ((beq_iff_eq.1 h) ▸ hx)
    have hempty : paths.isEmpty = false := by
      cases paths with
      | nil => exact absurd rfl hne
      | cons a t => rfl
    simp [Validate, hid, hp, hany, hempty]
  · intro he
    subst he
    simp [Validate, hid, hp]

/-- C4 witness: the three behaviors at concrete directory listings —
`custom.json` only fails with the unused-pipelines error, `default.yml`
sets the pipeline to `"default"`, and an empty directory passes. -/
theorem C4_witness :
    Validate { ID := "mysql.error" } ["custom.json"]
      = .error (.unusedPipelines "mysql.error") ∧
    Validate { ID := "mysql.error" } ["default.yml"]
      = .ok { ID := "mysql.error", IngestPipeline := "default" } ∧
    Validate { ID := "mysql.error" } [] = .ok { ID := "mysql.error" } := by
  refine ⟨?_, ?_, ?_⟩
  · exact (C4_pipeline_defaulting { ID := "mysql.error" } ["custom.json"] rfl
      (by decide)).2.1 (by decide) (by decide) (by decide)
  · exact (C4_pipeline_defaulting { ID := "mysql.error" } ["default.yml"] rfl
      (by decide)).1 (Or.inr (by decide))
  · exact (C4_pipeline_defaulting { ID := "mysql.error" } [] rfl (by decide)).2.2 rfl

/-!
### C10 — defaulted dataset ids and the hyphen rule
-/

/-- C10: a dataset with no explicit id gets `{package}.{directory}` as its
id (src/util/dataset.go lines 76-78), and the hyphen rule at line 94 is
checked against this whole defaulted id, so a hyphen anywhere in the
package name or the directory name always fails validation with the
invalid-identifier error. -/
theorem C10_defaulted_id_fails_on_hyphen (d : DataSet) (pname dpath : String)
    (paths : List String) (hid : d.ID = "")
    (hdash : '-' ∈ pname.toList ∨ '-' ∈ dpath.toList) :
    (newDatasetDefaults d pname dpath).ID = pname ++ "." ++ dpath ∧
    Validate (newDatasetDefaults d pname dpath) paths
      = .error (.invalidID (pname ++ "." ++ dpath)) := by
  have hID : (newDatasetDefaults d pname dpath).ID = pname ++ "." ++ dpath := by
    unfold newDatasetDefaults
    by_cases hr : (d.Release == "") = true
    · simp [hid, hr]
    · simp [hid, hr]
  refine ⟨hID, ?_⟩
  have hcc : containsChar (newDatasetDefaults d pname dpath).ID '-' = true := by
    rw [hID]
    unfold containsChar
    rw [toList_append, toList_append]
    rcases hdash with h | h
    · have h2 : '-' ∈ pname.data := h
      exact List.elem_iff.2 (by simp [h2])
    · have h2 : '-' ∈ dpath.data := h
      exact List.elem_iff.2 (by simp [h2])
  unfold Validate
  rw [if_pos hcc, hID]

/-- C10 witness: package `mysql-beta`, dataset directory `error`, no
explicit id. -/
theorem C10_witness :
    (newDatasetDefaults { } "mysql-beta" "error").ID = "mysql-beta" ++ "." ++ "error" ∧
    Validate (newDatasetDefaults { } "mysql-beta" "error") []
      = .error (.invalidID ("mysql-beta" ++ "." ++ "error")) :=
  C10_defaulted_id_fails_on_hyphen { } "mysql-beta" "error" [] rfl (Or.inl (by decide))

/-!
### C8 — internal packages are hidden by default
-/

theorem noInternal_deleteVersionAt (pl : PackagesList) (n v : String)
    (h : NoInternal pl) : NoInternal (deleteVersionAt pl n v) := by
  intro nv hnv
  obtain ⟨nv0, hnv0, heq⟩ := List.mem_map.1 hnv
  subst heq
  by_cases hb : (nv0.1 == n) = true
  · rw [if_pos hb]
    intro vp hvp
    exact h nv0 hnv0 vp (List.mem_filter.1 hvp).1
  · rw [if_neg hb]
    exact h nv0 hnv0

theorem noInternal_collapse (pl : PackagesList) (p : Package)
    (h : NoInternal pl) : NoInternal (collapse pl p) := by
  unfold collapse
  generalize (pl.flatMap fun nv => nv.2) = ents
  induction ents generalizing pl with
  | nil => exact h
  | cons e t ih =>
    rw [List.foldl_cons]
    apply ih
    by_cases h1 : (e.2.name == p.name) = true
    · by_cases h2 : (e.2.isNewer p) = true
      · rw [if_pos h1, if_pos h2]
        exact h
      · rw [if_pos h1, if_neg h2]
        exact noInternal_deleteVersionAt _ _ _ h
    · rw [if_neg h1]
      exact h

theorem noInternalVM_mapSet (vm : VersionMap) (k : String) (p : Package)
    (h : NoInternalVM vm) (hp : p.internal = false) : NoInternalVM (mapSet vm k p) := by
  intro vp hvp
  unfold mapSet at hvp
  by_cases hs : (vm.lookup k).isSome
  · rw [if_pos hs] at hvp
    obtain ⟨kv, hkv, heq⟩ := List.mem_map.1 hvp
    by_cases hb : (kv.1 == k) = true
    · rw [if_pos hb] at heq
      rw [← heq]
      exact hp
    · rw [if_neg hb] at heq
      rw [← heq]
      exact h kv hkv
  · rw [if_neg hs] at hvp
    rcases List.mem_append.1 hvp with hm | hm
    · exact h vp hm
    · rw [List.mem_singleton.1 hm]
      exact hp

theorem noInternal_addPackage (pl : PackagesList) (p : Package)
    (h : NoInternal pl) (hp : p.internal = false) : NoInternal (addPackage pl p) := by
  have h1 : NoInternal (if (pl.lookup p.name).isSome then pl else pl ++ [(p.name, [])]) := by
    by_cases hs : (pl.lookup p.name).isSome
    · rw [if_pos hs]
      exact h
    · rw [if_neg hs]
      intro nv hnv
      rcases List.mem_append.1 hnv with hm | hm
      · exact h nv hm
      · rw [List.mem_singleton.1 hm]
        intro vp hvp
        cases hvp
  simp only [addPackage]
  intro nv hnv
  obtain ⟨nv0, hnv0, heq⟩ := List.mem_map.1 hnv
  subst heq
  by_cases hb : (nv0.1 == p.name) = true
  · rw [if_pos hb]
    exact noInternalVM_mapSet _ _ _ (h1 nv0 hnv0) hp
  · rw [if_neg hb]
    exact h1 nv0 hnv0

theorem noInternal_processPackage (q : ParsedQuery) (pl : PackagesList) (p : Package)
    (hq : q.internal = false) (h : NoInternal pl) : NoInternal (processPackage q pl p) := by
  unfold processPackage
  by_cases h1 : (p.internal && !q.internal) = true
  · rw [if_pos h1]
    exact h
  · rw [if_neg h1]
    have hp : p.internal = false := by
      rw [hq] at h1
      simpa using h1
    by_cases h2 : (q.category != "" && !(p.hasCategory q.category)) = true
    · rw [if_pos h2]
      exact h
    · rw [if_neg h2]
      by_cases h3 : (match q.kibanaVersion with
          | some kv => !(p.hasKibanaVersion kv)
          | none => false) = true
      · rw [if_pos h3]
        exact h
      · rw [if_neg h3]
        by_cases h4 : (q.packageQuery != "" && q.packageQuery != p.name) = true
        · rw [if_pos h4]
          exact h
        · rw [if_neg h4]
          apply noInternal_addPackage _ _ _ hp
          by_cases h5 : (!q.all) = true
          · rw [if_pos h5]
            exact noInternal_collapse _ _ h
          · rw [if_neg h5]
            exact h

theorem noInternal_buildList (q : ParsedQuery) (packages : List Package)
    (hq : q.internal = false) : NoInternal (buildList q packages) := by
  unfold buildList
  have hgen : ∀ (l : List Package) (acc : PackagesList), NoInternal acc →
      NoInternal (l.foldl (processPackage q) acc) := by
    intro l
    induction l with
    | nil => intro acc h; exact h
    | cons a t ih =>
      intro acc h
      rw [List.foldl_cons]
      exact ih _ (noInternal_processPackage q acc a hq h)
  exact hgen packages [] (by intro nv hnv; cases hnv)

theorem lookupComposite_internal_false (pl : PackagesList) (parts : List String)
    (h : NoInternal pl) : (lookupComposite pl parts).internal = false := by
  unfold lookupComposite
  cases hl : pl.lookup (parts.headD "") with
  | none => rfl
  | some vm =>
    simp only [Option.getD_some]
    cases hv : vm.lookup ((parts.drop 1).headD "") with
    | none => rfl
    | some m =>
      obtain ⟨k2, hk2⟩ := mem_of_lookup _ _ _ hl
      obtain ⟨k3, hk3⟩ := mem_of_lookup _ _ _ hv
      exact h (k2, vm) hk2 (k3, m) hk3

/-- C8: with `internal=false` (the default), no output record carries the
internal marker — in particular no internal package ever reaches the
ResultSet, because the loop at src/unnamed/part_000 lines 81-83 skips
internal packages and line 169-171 emits the marker only for stored
internal packages. -/
theorem C8_internal_packages_hidden (q : ParsedQuery) (packages : List Package)
    (r : OutputRecord) (hq : q.internal = false)
    (hr : r ∈ getPackageOutput (buildList q packages)) : r.internal = false := by
  unfold getPackageOutput at hr
  obtain ⟨k, hk, heq⟩ := List.mem_map.1 hr
  rw [← heq]
  exact lookupComposite_internal_false _ _ (noInternal_buildList q packages hq)

/-- C8 witness: the default query over a non-internal package produces its
record, and that record carries no internal marker. -/
theorem C8_witness : (recordOf mysql100).internal = false :=
  C8_internal_packages_hidden { } [mysql100] (recordOf mysql100) rfl (by decide)

/-!
### C6 — deterministic ordering of the output
-/

theorem splitSeparator_append (a b : String) (ha : '@' ∉ a.toList) (hb : '@' ∉ b.toList) :
    splitSeparator (a ++ "@" ++ b) = [a, b] := by
  unfold splitSeparator
  rw [toList_append, toList_append]
  show List.map (fun l => String.mk l)
    (List.splitOn '@' ((a.toList ++ ['@']) ++ b.toList)) = [a, b]
  rw [List.append_assoc, List.singleton_append]
  have hpa : ∀ x ∈ a.toList, ¬ ((x == '@') = true) := by
    intro x hx hbeq
    exact ha (beq_iff_eq.1 hbeq ▸ hx)
  have hpb : ∀ x ∈ b.toList, ¬ ((x == '@') = true) := by
    intro x hx hbeq
    exact hb (beq_iff_eq.1 hbeq ▸ hx)
  simp only [List.splitOn]
  rw [List.splitOnP_first _ _ hpa '@' (beq_self_eq_true '@'),
    List.splitOnP_eq_single _ _ hpb]
  simp [mk_toList]

theorem getPackageOutput_keys (pl : PackagesList) (h : WellFormedList pl) :
    (getPackageOutput pl).map (fun r => r.name ++ "@" ++ r.version)
      = sortStrings (composeKeys pl) := by
  obtain ⟨hnd, hndin, hshape, hsep⟩ := h
  unfold getPackageOutput
  rw [List.map_map]
  refine Eq.trans (List.map_congr_left ?_) (List.map_id _)
  intro k hk
  have hk2 : k ∈ composeKeys pl := by
    unfold sortStrings at hk
    exact (List.perm_insertionSort _ _).mem_iff.1 hk
  obtain ⟨nv, hnv, hk3⟩ := List.mem_flatMap.1 hk2
  obtain ⟨vp, hvp, hk4⟩ := List.mem_map.1 hk3
  subst hk4
  show (recordOf (lookupComposite pl (splitSeparator (nv.1 ++ "@" ++ vp.1)))).name ++ "@" ++
    (recordOf (lookupComposite pl (splitSeparator (nv.1 ++ "@" ++ vp.1)))).version
      = nv.1 ++ "@" ++ vp.1
  have hna : '@' ∉ nv.1.toList := (hsep nv hnv).1
  have hvb : '@' ∉ vp.1.toList := (hsep nv hnv).2 vp hvp
  rw [splitSeparator_append _ _ hna hvb]
  have hl1 : pl.lookup nv.1 = some nv.2 :=
    lookup_eq_of_mem pl nv.1 nv.2 hnd (Prod.mk.eta.symm ▸ hnv)
  have hl2 : nv.2.lookup vp.1 = some vp.2 :=
    lookup_eq_of_mem nv.2 vp.1 vp.2 (hndin nv hnv) (Prod.mk.eta.symm ▸ hvp)
  unfold lookupComposite
  simp only [List.headD_cons, List.drop_succ_cons, List.drop_zero]
  rw [hl1]
  simp only [Option.getD_some]
  rw [hl2]
  simp only [Option.getD_some]
  obtain ⟨hn, hv⟩ := hshape nv hnv vp hvp
  simp [recordOf, hn, hv]

/-- C6: over any well-formed selection (distinct keys, packages stored
under their own name and version, no separator character inside them), the
formatter's records come out sorted ascending by the textual composite key
`name + "@" + version` (src/unnamed/part_000 lines 140-154), and formatting
the same selection twice gives identical output. -/
theorem C6_output_sorted (pl : PackagesList) (h : WellFormedList pl) :
    List.Sorted (fun a b => strLe a b = true)
      ((getPackageOutput pl).map (fun r => r.name ++ "@" ++ r.version)) ∧
    getPackageOutput pl = getPackageOutput pl := by
  refine ⟨?_, rfl⟩
  rw [getPackageOutput_keys pl h]
  unfold sortStrings
  exact List.sorted_insertionSort _ _

/-- C6 witness: a two-version selection comes out sorted by its composite
keys. -/
theorem C6_witness :
    List.Sorted (fun a b => strLe a b = true)
      ((getPackageOutput [("mysql", [("1.0.0", mysql100), ("1.2.0", mysql120)])]).map
        (fun r => r.name ++ "@" ++ r.version)) ∧
    getPackageOutput [("mysql", [("1.0.0", mysql100), ("1.2.0", mysql120)])]
      = getPackageOutput [("mysql", [("1.0.0", mysql100), ("1.2.0", mysql120)])] :=
  C6_output_sorted [("mysql", [("1.0.0", mysql100), ("1.2.0", mysql120)])]
    (by unfold WellFormedList; exact ⟨by decide, by decide, by decide, by decide⟩)

end PR
